import Mathlib

/-!
Verification development for the media-conversion job service.

The definitions below are a shallow embedding of the job lifecycle and
progress-composition engine of the repository:

* the `Job` data model and the job store (`src/lib/jobs.ts`, and the
  persisted variant of the store whose `loadPersistedJobs` / `updateJob` /
  `cleanupOldJobs` appear in `src/unnamed/part_014`),
* the progress compositor and the remote-source (YouTube-to-MP3) job
  runner (`src/unnamed/part_010`, `POST`),
* the local-conversion job runner (`src/app/api/convert/route.ts`, `POST`),
* result retrieval (`streamOutput` in `src/lib/jobs.ts`),
* the retention sweep (`cleanupOldJobs` in `src/lib/jobs.ts` /
  `src/unnamed/part_014`, together with `cleanupOldFiles` in
  `src/unnamed/part_016`).

Timestamps are modelled as integers (milliseconds since the epoch, the
value of `Date.now()` / `date.getTime()`).

Sub-progress values reported to the runner's callbacks are modelled as
integers: every collaborator call site rounds before reporting
(`Math.min(Math.round(...), 100)` in `downloadYouTubeAudio`,
`Math.round(info.percent)` in `extractAudioMp3` / `convertToMp4`).
JavaScript `Math.round(p * 0.5)` for an integer `p` equals
`⌊p/2 + 1/2⌋ = (p + 1) / 2` (integer Euclidean division); the lemma
`jsRoundHalf_eq_floor` below proves this identification against the
real-valued rounding formula.
-/

namespace MyApp

/-- Job status, from the `JobStatus` union type in `src/lib/jobs.ts`. -/
inductive JobStatus where
  | queued
  | running
  | done
  | error
deriving DecidableEq

/-- Target output format (`'mp4' | 'mp3'`). -/
inductive Target where
  | mp4
  | mp3
deriving DecidableEq

/-- Conversion preset (`'web' | 'mobile'`). -/
inductive Preset where
  | web
  | mobile
deriving DecidableEq

/-- The `Job` record from `src/lib/jobs.ts` (the persisted store in
`src/unnamed/part_014` adds the `originalName` field, included here).
`createdAt` / `updatedAt` are epoch milliseconds; the `error` field of the
record is called `errMsg` here. -/
structure Job where
  id : String
  status : JobStatus
  progress : Option Int := none
  inputPath : String
  outputPath : Option String := none
  errMsg : Option String := none
  target : Target
  preset : Option Preset := none
  bitrate : Option Int := none
  originalName : Option String := none
  createdAt : Int
  updatedAt : Int
deriving DecidableEq

/-- A `Partial<Job>` patch: each field is present (`some`) or absent
(`none`).  The code never writes an explicit `undefined` into a patch, so
a present optional field always carries a value. -/
structure JobPatch where
  id : Option String := none
  status : Option JobStatus := none
  progress : Option Int := none
  inputPath : Option String := none
  outputPath : Option String := none
  errMsg : Option String := none
  target : Option Target := none
  preset : Option Preset := none
  bitrate : Option Int := none
  originalName : Option String := none
  createdAt : Option Int := none
  updatedAt : Option Int := none
deriving DecidableEq

/-- The object-spread merge performed by `updateJob`
(`src/lib/jobs.ts:61`): `{ ...existingJob, ...patch, updatedAt: new Date() }`.
Fields present in the patch win; `updatedAt` is always refreshed to `now`
(even if the patch carries an `updatedAt`, the trailing property wins). -/
def applyPatch (j : Job) (p : JobPatch) (now : Int) : Job :=
  { id := p.id.getD j.id
    status := p.status.getD j.status
    progress := p.progress.orElse fun _ => j.progress
    inputPath := p.inputPath.getD j.inputPath
    outputPath := p.outputPath.orElse fun _ => j.outputPath
    errMsg := p.errMsg.orElse fun _ => j.errMsg
    target := p.target.getD j.target
    preset := p.preset.orElse fun _ => j.preset
    bitrate := p.bitrate.orElse fun _ => j.bitrate
    originalName := p.originalName.orElse fun _ => j.originalName
    createdAt := p.createdAt.getD j.createdAt
    updatedAt := now }

/-- JavaScript `Math.round(p * 0.5)` for an integer `p`: round half up
(`(p + 1) / 2` with Euclidean division; see `jsRoundHalf_eq_floor`). -/
def jsRoundHalf (p : ℤ) : ℤ := (p + 1) / 2

/-- `clamp(x, lo, hi)` as written in the specification of the compositor. -/
def clamp (lo hi x : ℤ) : ℤ := max lo (min hi x)

/-- Fetch-phase progress composition, from the download callback in
`src/unnamed/part_010:183-187`:
`Math.max(0, Math.min(50, Math.round(downloadProgress * 0.5)))`. -/
def composeFetch (p : ℤ) : ℤ := max 0 (min 50 (jsRoundHalf p))

/-- Encode-phase progress composition, from the conversion callback in
`src/unnamed/part_010:193-197`:
`Math.max(50, Math.min(100, 50 + Math.round(conversionProgress * 0.5)))`. -/
def composeEncode (p : ℤ) : ℤ := max 50 (min 100 (50 + jsRoundHalf p))

/-! ## Strings: lowercase and substring containment

`String.prototype.toLowerCase()` / `String.prototype.includes()` as used by
the error classifier in `src/unnamed/part_010:265-280`. -/

/-- `s.toLowerCase()`. -/
def lowerStr (s : String) : String := String.mk (s.data.map Char.toLower)

/-- Auxiliary substring search over character lists. -/
def hasSub (pat : List Char) : List Char → Bool
  | [] => pat.isEmpty
  | c :: rest => pat.isPrefixOf (c :: rest) || hasSub pat rest

/-- `s.includes(pat)`. -/
def containsStr (s pat : String) : Bool := hasSub pat.data s.data

/-- The error classifier of the remote runner's catch block
(`src/unnamed/part_010:261-280`): substring matching on the lowercased
collaborator message, with the original message passed through when no
known pattern matches (and `'Conversion failed'` when the message is
empty, i.e. falsy). -/
def mapConversionError (msg : String) : String :=
  let m := lowerStr msg
  if containsStr m "video unavailable" || containsStr m "private" then
    "Video is unavailable, private, or region-locked"
  else if containsStr m "age-restricted" || containsStr m "sign in" then
    "Video is age-restricted or requires sign-in"
  else if containsStr m "live" then
    "Live streams are not supported"
  else if containsStr m "network" || containsStr m "timeout" then
    "Network error or timeout occurred"
  else if containsStr m "format not supported" then
    "Video format is not supported"
  else if msg ≠ "" then
    msg
  else
    "Conversion failed"

/-! ## The in-memory job store (`src/lib/jobs.ts`)

The process-wide `Map<string, Job>` is modelled as an association list;
`Map.prototype.set` replaces the binding for an existing key. -/

/-- A job store: the `jobs` map. -/
def Store := List (String × Job)

/-- `jobs.set(id, job)`. -/
def storeSet (s : Store) (id : String) (j : Job) : Store :=
  (id, j) :: List.filter (fun e => e.1 ≠ id) s

/-- `jobs.get(id)` (`getJob`, `src/lib/jobs.ts:43`). -/
def storeGet (s : Store) (id : String) : Option Job := List.lookup id s

/-- `updateJob(id, patch)` (`src/lib/jobs.ts:61-71`): merge the patch into
the existing record and refresh `updatedAt`; silently do nothing when the
id is unknown. -/
def updateJobStore (s : Store) (id : String) (patch : JobPatch) (now : Int) : Store :=
  match storeGet s id with
  | none => s
  | some j => storeSet s id (applyPatch j patch now)

/-! ## Store update patches issued by the job runners -/

/-- `updateJob(job.id, { outputPath })`. -/
def outputPathPatch (p : String) : JobPatch := { outputPath := some p }

/-- `updateJob(job.id, { status: 'running', progress: 0 })`. -/
def runningPatch : JobPatch := { status := some .running, progress := some 0 }

/-- The fetch-phase progress callback of the remote runner
(`src/unnamed/part_010:183-187`). -/
def fetchProgressPatch (p : ℤ) : JobPatch := { progress := some (composeFetch p) }

/-- `updateJob(job.id, { progress: 50 })` at the fetch→encode transition
(`src/unnamed/part_010:190`). -/
def forceFiftyPatch : JobPatch := { progress := some 50 }

/-- The encode-phase progress callback of the remote runner
(`src/unnamed/part_010:193-197`). -/
def encodeProgressPatch (p : ℤ) : JobPatch := { progress := some (composeEncode p) }

/-- `updateJob(job.id, { status: 'done', progress: 100 })`. -/
def donePatch : JobPatch := { status := some .done, progress := some 100 }

/-- The error update of the remote runner's catch block
(`src/unnamed/part_010:282-286`):
`updateJob(job.id, { status: 'error', error: errorMessage, progress: 0 })`. -/
def errorResetPatch (msg : String) : JobPatch :=
  { status := some .error, errMsg := some (mapConversionError msg), progress := some 0 }

/-- The encode progress callback of the local runner
(`src/app/api/convert/route.ts:68`):
`Math.max(0, Math.min(100, Math.round(p)))` (the argument is already an
integer, so the rounding is the identity). -/
def localProgressPatch (p : ℤ) : JobPatch := { progress := some (max 0 (min 100 p)) }

/-- The error update of the local runner (`src/app/api/convert/route.ts:80`):
`updateJob(job.id, { status: 'error', error: message })` — message passed
through, progress not touched. -/
def localErrorPatch (msg : String) : JobPatch :=
  { status := some .error, errMsg := some msg }

/-! ## The remote-source (YouTube-to-MP3) job runner (`src/unnamed/part_010`)

One execution of the `POST` handler's async block is determined by the
progress reports each collaborator delivers before resolving or throwing,
whether each collaborator fails (and with what message), and what the
file system `existsSync` probes observe.  The trace of store updates and
the final on-disk state are computed from these parameters exactly as the
code does. -/

structure RemoteRun where
  jobId : String := "job1"
  /-- `tempInfo.absPath`, the intermediate download target. -/
  tempPath : String := "temp/dl.webm"
  /-- the `createOutputPath(job.id, 'mp3')` result. -/
  outPath : String := "temp/out.mp3"
  createdAtMs : Int := 0
  /-- progress values delivered by the download callback. -/
  fetchReports : List ℤ := []
  /-- `some msg` when `downloadYouTubeAudio` rejects with message `msg`. -/
  fetchErr : Option String := none
  /-- `fs.existsSync(tempInfo.absPath)` right after a successful download. -/
  tempExistsAfterFetch : Bool := true
  /-- progress values delivered by the conversion callback. -/
  encodeReports : List ℤ := []
  /-- `some msg` when `extractAudioMp3` rejects with message `msg`. -/
  encodeErr : Option String := none
  /-- `fs.existsSync(outputPath)` right after a successful conversion. -/
  outputExistsAfterEncode : Bool := true
  /-- `fs.existsSync(outputPath)` inside the catch block (true when the
  failed conversion left a partially-written output file). -/
  partialOutputAtCatch : Bool := false
deriving DecidableEq

/-- The job record built by `createJob(tempInfo.absPath, 'mp3')`
(`src/lib/jobs.ts:81-103`): status `queued`, no progress, no output path. -/
def remoteInitJob (r : RemoteRun) : Job :=
  { id := r.jobId
    status := .queued
    inputPath := r.tempPath
    target := .mp3
    createdAt := r.createdAtMs
    updatedAt := r.createdAtMs }

/-- The sequence of `updateJob` patches issued for one remote job, in
program order (`src/unnamed/part_010:172-292`): the `outputPath` write
right after creation, the `running` transition, the fetch-phase callback
writes, then — unless the fetch failed — the forced `progress: 50`, the
encode-phase callback writes, and finally either the `done` or the
`error` update. -/
def remoteRunPatches (r : RemoteRun) : List JobPatch :=
  outputPathPatch r.outPath ::
  runningPatch ::
  match r.fetchErr with
  | some msg => r.fetchReports.map fetchProgressPatch ++ [errorResetPatch msg]
  | none =>
    r.fetchReports.map fetchProgressPatch ++
    forceFiftyPatch ::
    match r.encodeErr with
    | some msg => r.encodeReports.map encodeProgressPatch ++ [errorResetPatch msg]
    | none => r.encodeReports.map encodeProgressPatch ++ [donePatch]

/-- Whether the output file is on disk once the remote run has finished.
The catch block deletes the output only when `outputFileExists &&
fs.existsSync(outputPath)` — and the `outputFileExists` flag is assigned
only after a successful conversion (`src/unnamed/part_010:177,199,242`),
so it is still `false` whenever the catch block runs. -/
def remoteOutputOnDisk (r : RemoteRun) : Bool :=
  match r.fetchErr with
  | some _ =>
    let outputFileExists := false
    let deleted := outputFileExists && r.partialOutputAtCatch
    r.partialOutputAtCatch && !deleted
  | none =>
    match r.encodeErr with
    | some _ =>
      let outputFileExists := false
      let deleted := outputFileExists && r.partialOutputAtCatch
      r.partialOutputAtCatch && !deleted
    | none => r.outputExistsAfterEncode

/-! ## The local-conversion job runner (`src/app/api/convert/route.ts`) -/

structure LocalRun where
  jobId : String := "job1"
  inputPath : String := "temp/in.mov"
  outPath : String := "temp/out.mp4"
  target : Target := .mp4
  preset : Option Preset := some .web
  createdAtMs : Int := 0
  encodeReports : List ℤ := []
  /-- `some msg` when the encode collaborator rejects with message `msg`. -/
  encodeErr : Option String := none
deriving DecidableEq

/-- The job record built by `createJob(inputPath, target, preset)`. -/
def localInitJob (l : LocalRun) : Job :=
  { id := l.jobId
    status := .queued
    inputPath := l.inputPath
    target := l.target
    preset := l.preset
    createdAt := l.createdAtMs
    updatedAt := l.createdAtMs }

/-- The sequence of `updateJob` patches issued for one local job
(`src/app/api/convert/route.ts:57-82`): the `running` transition, then the
`outputPath` write (immediately before the encode collaborator is
invoked), the encode callback writes, and finally `done` or `error`. -/
def localRunPatches (l : LocalRun) : List JobPatch :=
  runningPatch ::
  outputPathPatch l.outPath ::
  (l.encodeReports.map localProgressPatch ++
    [match l.encodeErr with
     | some msg => localErrorPatch msg
     | none => donePatch])

/-! ## Job state traces

`jobStates j t ps` is the sequence of job records observed by a status
poller as the patches `ps` are applied in order through the store's merge
(`applyPatch`), starting from record `j`; the clock `t` advances by one
step per update (its exact values only influence `updatedAt`, which none
of the trace-level claims concern). -/

def jobStates (j : Job) (t : Int) : List JobPatch → List Job
  | [] => [j]
  | p :: ps => j :: jobStates (applyPatch j p t) (t + 1) ps

/-- The job record after all patches have been applied. -/
def runPatches (j : Job) (t : Int) : List JobPatch → Job
  | [] => j
  | p :: ps => runPatches (applyPatch j p t) (t + 1) ps

/-- Final job record of a remote run. -/
def remoteFinalJob (r : RemoteRun) (t : Int) : Job :=
  runPatches (remoteInitJob r) t (remoteRunPatches r)

/-- Final job record of a local run. -/
def localFinalJob (l : LocalRun) (t : Int) : Job :=
  runPatches (localInitJob l) t (localRunPatches l)

/-- The sequence of `progress` values written to the store by a patch
sequence (patches that do not carry a progress field write none). -/
def progressWrites (ps : List JobPatch) : List Int :=
  ps.filterMap fun p => p.progress

/-- All patches of a remote run except the final terminal update
(`remoteRunPatches_eq_concat` below relates this to `remoteRunPatches`). -/
def remoteMidPatches (r : RemoteRun) : List JobPatch :=
  outputPathPatch r.outPath ::
  runningPatch ::
  match r.fetchErr with
  | some _ => r.fetchReports.map fetchProgressPatch
  | none =>
    r.fetchReports.map fetchProgressPatch ++
    forceFiftyPatch :: r.encodeReports.map encodeProgressPatch

/-- The single terminal update that ends every remote run. -/
def remoteFinalPatch (r : RemoteRun) : JobPatch :=
  match r.fetchErr with
  | some msg => errorResetPatch msg
  | none =>
    match r.encodeErr with
    | some msg => errorResetPatch msg
    | none => donePatch

/-- All patches of a local run except the final terminal update. -/
def localMidPatches (l : LocalRun) : List JobPatch :=
  runningPatch :: outputPathPatch l.outPath :: l.encodeReports.map localProgressPatch

/-- The single terminal update that ends every local run. -/
def localFinalPatch (l : LocalRun) : JobPatch :=
  match l.encodeErr with
  | some msg => localErrorPatch msg
  | none => donePatch

/-! ## Concrete runs and records used as test vectors -/

/-- A job that has already reached `done`. -/
def jobDoneC1 : Job :=
  { id := "a"
    status := .done
    progress := some 100
    inputPath := "temp/in.webm"
    outputPath := some "temp/a_output.mp3"
    target := .mp3
    createdAt := 0
    updatedAt := 10 }

/-- A store holding only `jobDoneC1`. -/
def storeC1 : Store := [("a", jobDoneC1)]

/-- A remote run whose fetch collaborator reports `50` and then `0`
(both in range), then both phases succeed. -/
def runC3 : RemoteRun := { fetchReports := [50, 0], encodeReports := [100] }

/-- A fully successful remote run with orderly reports `0, 50, 100` in
both phases. -/
def runOk : RemoteRun := { fetchReports := [0, 50, 100], encodeReports := [0, 50, 100] }

/-- A remote run whose encode collaborator fails with an
`'invalid codec'` message after writing a partial output file. -/
def runC6 : RemoteRun :=
  { fetchReports := [100]
    encodeReports := [30]
    encodeErr := some "FFmpeg audio extraction error: invalid codec"
    partialOutputAtCatch := true }

/-- A remote run whose fetch collaborator fails. -/
def runFetchFail : RemoteRun := { fetchReports := [40], fetchErr := some "boom" }

/-- The patches of a remote run after the initial `outputPath` write
(definitionally the tail of `remoteRunPatches`). -/
def remoteTailPatches (r : RemoteRun) : List JobPatch :=
  runningPatch ::
  match r.fetchErr with
  | some msg => r.fetchReports.map fetchProgressPatch ++ [errorResetPatch msg]
  | none =>
    r.fetchReports.map fetchProgressPatch ++
    forceFiftyPatch ::
    match r.encodeErr with
    | some msg => r.encodeReports.map encodeProgressPatch ++ [errorResetPatch msg]
    | none => r.encodeReports.map encodeProgressPatch ++ [donePatch]

/-! ## Result Retrieval (`streamOutput`, `src/lib/jobs.ts:110-152`)

The file system is abstracted by the result of `stat`: `statSize path` is
`some size` when the file exists and is readable, `none` when `stat`
throws (missing/unreadable file). -/

/-- The textual form of a target (`job.target` is the file extension). -/
def targetStr : Target → String
  | .mp4 => "mp4"
  | .mp3 => "mp3"

/-- The `Content-Type` derived from the target. -/
def contentTypeOf (t : Target) : String :=
  match t with
  | .mp4 => "video/mp4"
  | .mp3 => "audio/mpeg"

/-- The possible outcomes of `streamOutput`: a 404 response (with its
body text), the 400 `'File not ready'` response, or a byte stream with
its content metadata. -/
inductive RetrieveResult where
  | notFound (body : String)
  | notReady
  | stream (contentType : String) (filename : String) (size : Int)
deriving DecidableEq

/-- `streamOutput(id)` (`src/lib/jobs.ts:110-152`), applied to the record
the store holds for the id: 404 `'Job not found'` for an unknown id; 400
`'File not ready'` when the status is not `done` or `outputPath` is
absent; otherwise `stat` the file — on failure 404 `'File not found'`,
on success a stream with content type derived from the target, the
`converted_<id>.<ext>` filename, and the file's size. -/
def streamOutput (job? : Option Job) (statSize : String → Option Int) : RetrieveResult :=
  match job? with
  | none => RetrieveResult.notFound "Job not found"
  | some j =>
    if j.status ≠ JobStatus.done ∨ j.outputPath = none then
      RetrieveResult.notReady
    else
      match j.outputPath with
      | none => RetrieveResult.notReady
      | some path =>
        match statSize path with
        | none => RetrieveResult.notFound "File not found"
        | some size =>
          RetrieveResult.stream (contentTypeOf j.target)
            ("converted_" ++ j.id ++ "." ++ targetStr j.target) size

/-- A `done` job whose output file may or may not be on disk. -/
def jobDoneC5 : Job :=
  { id := "b"
    status := .done
    progress := some 100
    inputPath := "temp/in.webm"
    outputPath := some "temp/b_output.mp3"
    target := .mp3
    createdAt := 0
    updatedAt := 0 }

/-- A freshly created job, in the shape `createJob` produces. -/
def jobC8 : Job :=
  { id := "a"
    status := .queued
    inputPath := "temp/x.mov"
    target := .mp4
    preset := some .web
    createdAt := 0
    updatedAt := 0 }

/-- A store holding only `jobC8`. -/
def storeC8 : Store := [("a", jobC8)]

/-- The `{ status: 'running', progress: 0 }` patch. -/
def patchC8 : JobPatch := { status := some .running, progress := some 0 }

/-! ## Retention sweep

One pass of the production cleanup scheduler (`src/lib/jobs.ts:208-233` /
`src/unnamed/part_014:513-538`): `cleanupOldJobs(24)` over the job map
(for the persisted store, also deleting the snapshot of each removed
job), then `cleanupOldFiles(24)` over the temp directory that holds the
input/output artifacts (`src/unnamed/part_016:241-265`), which deletes
every file whose mtime is older than the cutoff. -/

/-- One hour in milliseconds (`60 * 60 * 1000`). -/
def msPerHour : Int := 3600000

/-- A sweep acts on the in-memory job map, the persisted snapshots, and
the artifact files (path with mtime). -/
structure SweepState where
  mem : List (String × Job)
  disk : List (String × Job)
  files : List (String × Int)

/-- `job.status === 'done' && job.updatedAt < cutoffTime`. -/
def expiredDone (cutoff : Int) (j : Job) : Bool :=
  decide (j.status = JobStatus.done ∧ j.updatedAt < cutoff)

/-- `cleanupOldJobs(maxAgeHours)` (`src/lib/jobs.ts:167-179`,
`src/unnamed/part_014:449-462`): remove every `done` job older than the
cutoff from the map, and (persisted store) delete its snapshot. -/
def cleanupOldJobs (s : SweepState) (now maxAgeHours : Int) : SweepState :=
  let cutoff := now - maxAgeHours * msPerHour
  { mem := s.mem.filter fun e => !expiredDone cutoff e.2
    disk := s.disk.filter fun e =>
      !(s.mem.any fun m => m.1 == e.1 && expiredDone cutoff m.2)
    files := s.files }

/-- `cleanupOldFiles(maxAgeHours)` (`src/unnamed/part_016:241-265`):
delete every file in the temp directory whose mtime is older than the
cutoff. -/
def cleanupOldFiles (files : List (String × Int)) (now maxAgeHours : Int) :
    List (String × Int) :=
  let cutoff := now - maxAgeHours * msPerHour
  files.filter fun f => !decide (f.2 < cutoff)

/-- One full pass of the hourly cleanup task: `cleanupOldJobs(24)` then
`cleanupOldFiles(24)`. -/
def sweepPass (s : SweepState) (now : Int) : SweepState :=
  let s1 := cleanupOldJobs s now 24
  { s1 with files := cleanupOldFiles s1.files now 24 }

/-! ## The persisted job store (`src/unnamed/part_014`)

`mem` is the process-wide map, `disk` the persisted snapshots (one JSON
file per job id).  A snapshot is the full record with the two timestamps
serialized to ISO-8601 strings; since `new Date(d.toISOString())` has the
same epoch milliseconds as `d`, the serialize/hydrate round trip is the
identity on the integer-timestamp model and snapshots are modelled as
`Job` values directly.  `getJob`'s write-back caching of a snapshot
loaded from disk is omitted: under the invariants proved below it does
not change the result of any lookup. -/

structure PStore where
  mem : List (String × Job)
  disk : List (String × Job)

/-- Key-replacing insertion: `Map.prototype.set` for `mem`,
`writeFileSync` to the id-named snapshot file for `disk`. -/
def pInsert (l : List (String × Job)) (id : String) (j : Job) : List (String × Job) :=
  (id, j) :: l.filter fun e => e.1 ≠ id

/-- `getJob(id)` (`src/unnamed/part_014:298-313`): the in-memory record,
else the persisted snapshot. -/
def pGetJob (s : PStore) (id : String) : Option Job :=
  (List.lookup id s.mem).orElse fun _ => List.lookup id s.disk

/-- `setJob(job)` (`src/unnamed/part_014:319-323`): refresh `updatedAt`,
store in the map, persist the snapshot (the snapshot file is named after
`job.id`). -/
def pSetJob (s : PStore) (j : Job) (now : Int) : PStore :=
  let jw : Job := { j with updatedAt := now }
  { mem := pInsert s.mem jw.id jw
    disk := pInsert s.disk jw.id jw }

/-- `createJob(...)` (`src/unnamed/part_014:352-376`): a fresh record in
status `queued` with no progress/output/error, stored via `setJob`.  The
id is a parameter (the code draws a random 32-hex-digit string). -/
def pCreateJob (s : PStore) (id inputPath : String) (target : Target)
    (preset : Option Preset) (bitrate : Option Int) (origName : Option String)
    (now : Int) : PStore :=
  pSetJob s
    { id := id
      status := .queued
      inputPath := inputPath
      target := target
      preset := preset
      bitrate := bitrate
      originalName := origName
      createdAt := now
      updatedAt := now } now

/-- `updateJob(id, patch)` (`src/unnamed/part_014:330-341`): look the
record up (memory, then snapshot), merge, store under the lookup id,
persist the snapshot under the merged record's own id. -/
def pUpdateJob (s : PStore) (id : String) (patch : JobPatch) (now : Int) : PStore :=
  match pGetJob s id with
  | none => s
  | some j =>
    let jw := applyPatch j patch now
    { mem := pInsert s.mem id jw
      disk := pInsert s.disk jw.id jw }

/-- The store operations a caller can perform. -/
inductive StoreOp where
  | create (id inputPath : String) (target : Target) (preset : Option Preset)
      (bitrate : Option Int) (origName : Option String) (now : Int)
  | update (id : String) (patch : JobPatch) (now : Int)

/-- Interpretation of one store operation. -/
def applyOp (s : PStore) : StoreOp → PStore
  | .create id inp tgt pre bit orig now => pCreateJob s id inp tgt pre bit orig now
  | .update id patch now => pUpdateJob s id patch now

/-- Running a sequence of operations against the initially empty store. -/
def runOps (ops : List StoreOp) : PStore :=
  ops.foldl applyOp { mem := [], disk := [] }

/-- No caller patches the `id` field (none of the runners or routes ever
puts `id` into a patch; an id-carrying patch would desynchronize the map
key from the snapshot file name). -/
def opKeepsId : StoreOp → Prop
  | .create _ _ _ _ _ _ _ => True
  | .update _ patch _ => patch.id = none

/-- `loadPersistedJobs` (`src/unnamed/part_014:245-270`): rebuild the map
from the snapshots alone, keying each loaded record by its own id. -/
def loadPersistedJobs (disk : List (String × Job)) : List (String × Job) :=
  disk.foldl (fun m e => pInsert m e.2.id e.2) []

/-- A process restart: the in-memory map is lost and rebuilt from the
persisted snapshots; the snapshots survive. -/
def restartStore (s : PStore) : PStore :=
  { mem := loadPersistedJobs s.disk, disk := s.disk }

/-- A concrete operation sequence: create a job, run it, finish `done`. -/
def opsDone : List StoreOp :=
  [ .create "a" "temp/in.webm" .mp3 none none none 0,
    .update "a" runningPatch 1,
    .update "a" (outputPathPatch "temp/a_output.mp3") 2,
    .update "a" donePatch 3 ]

/-- The record `opsDone` leaves in the store. -/
def jobDoneC4 : Job :=
  { id := "a"
    status := .done
    progress := some 100
    inputPath := "temp/in.webm"
    outputPath := some "temp/a_output.mp3"
    target := .mp3
    createdAt := 0
    updatedAt := 3 }

/-- A `done` job whose last update is far in the past. -/
def jobOld : Job :=
  { id := "old"
    status := .done
    progress := some 100
    inputPath := "temp/old.webm"
    outputPath := some "temp/old_output.mp3"
    target := .mp3
    createdAt := 0
    updatedAt := 0 }

/-- A sweep state holding `jobOld`, its snapshot, and its output file. -/
def sweepC7 : SweepState :=
  { mem := [("old", jobOld)]
    disk := [("old", jobOld)]
    files := [("temp/old_output.mp3", 0)] }

/-- The well-formedness invariant of the persisted store, maintained by
`create` and `update` (both write the snapshot on every call): the map
and the snapshots agree on every id, every snapshot file is named after
the id of the record it holds, and snapshot file names are unique. -/
def StoreInv (s : PStore) : Prop :=
  (∀ a, List.lookup a s.mem = List.lookup a s.disk) ∧
  (∀ e ∈ s.disk, e.1 = e.2.id) ∧
  ((s.disk.map Prod.fst).Nodup)

end MyApp

namespace MyApp

/-- `jsRoundHalf` agrees with the real-valued round-half-up of `p * 0.5`,
so the integer model matches JavaScript `Math.round(p * 0.5)`. -/
theorem jsRoundHalf_eq_floor (p : ℤ) :
    jsRoundHalf p = ⌊(p : ℚ) * (1 / 2) + 1 / 2⌋ := by
  have h : ((p : ℚ) * (1 / 2) + 1 / 2) = ((p + 1 : ℤ) : ℚ) / ((2 : ℕ) : ℚ) := by
    push_cast
    ring
  rw [jsRoundHalf, h, Rat.floor_intCast_div_natCast]
  norm_num

/-- C2: the composed progress written by the remote runner's callbacks is
exactly `clamp(round(p * 0.5), 0, 50)` in the fetch phase and
`clamp(50 + round(p * 0.5), 50, 100)` in the encode phase (with `round`
the real-valued round-half-up), including the spec's concrete values and
the clamping of the out-of-range inputs `-10` and `150`. -/
theorem compositor_correctness :
    (∀ p : ℤ, composeFetch p = clamp 0 50 ⌊(p : ℚ) * (1 / 2) + 1 / 2⌋) ∧
    (∀ p : ℤ, composeEncode p = clamp 50 100 (50 + ⌊(p : ℚ) * (1 / 2) + 1 / 2⌋)) ∧
    composeFetch 0 = 0 ∧ composeFetch 50 = 25 ∧ composeFetch 100 = 50 ∧
    composeEncode 0 = 50 ∧ composeEncode 50 = 75 ∧ composeEncode 100 = 100 ∧
    composeFetch (-10) = 0 ∧ composeFetch 150 = 50 ∧
    composeEncode (-10) = 50 ∧ composeEncode 150 = 100 := by
  refine ⟨fun p => ?_, fun p => ?_, by decide, by decide, by decide, by decide,
    by decide, by decide, by decide, by decide, by decide, by decide⟩
  · rw [composeFetch, clamp, jsRoundHalf_eq_floor]
  · rw [composeEncode, clamp, jsRoundHalf_eq_floor]

end MyApp

namespace MyApp

/-! ### Basic facts about patch application and traces -/

theorem applyPatch_status_of_none {j : Job} {p : JobPatch} {t : Int}
    (h : p.status = none) : (applyPatch j p t).status = j.status := by
  simp [applyPatch, h]

theorem applyPatch_outputPath_of_none {j : Job} {p : JobPatch} {t : Int}
    (h : p.outputPath = none) : (applyPatch j p t).outputPath = j.outputPath := by
  simp [applyPatch, h, Option.orElse]

theorem jobStates_head? (j : Job) (t : Int) (ps : List JobPatch) :
    (jobStates j t ps).head? = some j := by
  cases ps <;> simp [jobStates]

theorem runPatches_append (j : Job) (t : Int) (ps qs : List JobPatch) :
    runPatches j t (ps ++ qs) = runPatches (runPatches j t ps) (t + ps.length) qs := by
  induction ps generalizing j t with
  | nil => simp [runPatches]
  | cons p ps ih =>
    have h : t + (((p :: ps).length : ℕ) : ℤ) = (t + 1) + ((ps.length : ℕ) : ℤ) := by
      simp only [List.length_cons]
      push_cast
      ring
    rw [List.cons_append,
      show runPatches j t (p :: (ps ++ qs)) = runPatches (applyPatch j p t) (t + 1) (ps ++ qs)
        from rfl,
      show runPatches j t (p :: ps) = runPatches (applyPatch j p t) (t + 1) ps from rfl,
      h, ih]

theorem remoteRunPatches_eq_cons (r : RemoteRun) :
    remoteRunPatches r = outputPathPatch r.outPath :: remoteTailPatches r := rfl

theorem remoteRunPatches_eq_concat (r : RemoteRun) :
    remoteRunPatches r = remoteMidPatches r ++ [remoteFinalPatch r] := by
  cases hf : r.fetchErr with
  | some m => simp [remoteRunPatches, remoteMidPatches, remoteFinalPatch, hf]
  | none =>
    cases he : r.encodeErr with
    | some m => simp [remoteRunPatches, remoteMidPatches, remoteFinalPatch, hf, he]
    | none => simp [remoteRunPatches, remoteMidPatches, remoteFinalPatch, hf, he]

theorem localRunPatches_eq_concat (l : LocalRun) :
    localRunPatches l = localMidPatches l ++ [localFinalPatch l] := rfl

theorem remoteFinalJob_eq (r : RemoteRun) (t : Int) :
    remoteFinalJob r t =
      applyPatch (runPatches (remoteInitJob r) t (remoteMidPatches r)) (remoteFinalPatch r)
        (t + (remoteMidPatches r).length) := by
  rw [remoteFinalJob, remoteRunPatches_eq_concat, runPatches_append]
  simp [runPatches]

theorem remoteMidPatches_status (r : RemoteRun) :
    ∀ p ∈ remoteMidPatches r, p.status = none ∨ p.status = some JobStatus.running := by
  intro p hp
  cases hf : r.fetchErr with
  | some m =>
    simp [remoteMidPatches, hf] at hp
    rcases hp with rfl | rfl | ⟨x, hx, rfl⟩ <;>
      simp [outputPathPatch, runningPatch, fetchProgressPatch]
  | none =>
    simp [remoteMidPatches, hf] at hp
    rcases hp with rfl | rfl | ⟨x, hx, rfl⟩ | rfl | ⟨x, hx, rfl⟩ <;>
      simp [outputPathPatch, runningPatch, fetchProgressPatch, forceFiftyPatch,
        encodeProgressPatch]

theorem localMidPatches_status (l : LocalRun) :
    ∀ p ∈ localMidPatches l, p.status = none ∨ p.status = some JobStatus.running := by
  intro p hp
  simp [localMidPatches] at hp
  rcases hp with rfl | rfl | ⟨x, hx, rfl⟩ <;>
    simp [outputPathPatch, runningPatch, localProgressPatch]

/-- If the starting record is non-terminal and every patch but the last
carries either no status or `running`, then no step of the resulting
state trace leaves `done` or `error`. -/
theorem chain'_terminal (j : Job) (t : Int) (ps : List JobPatch)
    (hj : j.status ≠ JobStatus.done ∧ j.status ≠ JobStatus.error)
    (hmid : ∀ p ∈ ps.dropLast, p.status = none ∨ p.status = some JobStatus.running) :
    List.Chain'
      (fun a b => (a.status = JobStatus.done ∨ a.status = JobStatus.error) → b.status = a.status)
      (jobStates j t ps) := by
  induction ps generalizing j t with
  | nil => simp [jobStates]
  | cons p ps ih =>
    rw [jobStates, List.chain'_cons']
    constructor
    · intro b _ hterm
      rcases hterm with h1 | h1
      · exact absurd h1 hj.1
      · exact absurd h1 hj.2
    · cases ps with
      | nil => simp [jobStates]
      | cons q qs =>
        have hp : p.status = none ∨ p.status = some JobStatus.running := by
          apply hmid
          simp [List.dropLast]
        apply ih
        · rcases hp with h | h
          · rw [applyPatch_status_of_none h]
            exact hj
          · constructor <;> simp [applyPatch, h]
        · intro x hx
          apply hmid
          simp [List.dropLast, hx]

end MyApp

namespace MyApp

/-! ### Output-path preservation helpers -/

theorem chain'_outputPath_of_none (j : Job) (t : Int) (ps : List JobPatch)
    (h : ∀ p ∈ ps, p.outputPath = none) :
    List.Chain' (fun a b => ∀ v, a.outputPath = some v → b.outputPath = some v)
      (jobStates j t ps) := by
  induction ps generalizing j t with
  | nil => simp [jobStates]
  | cons p ps ih =>
    rw [jobStates, List.chain'_cons']
    constructor
    · intro b hb v hv
      rw [jobStates_head?] at hb
      cases hb
      rw [applyPatch_outputPath_of_none (h p (by simp))]
      exact hv
    · exact ih _ _ fun q hq => h q (by simp [hq])

theorem chain'_outputPath_cons (j : Job) (t : Int) (p : JobPatch) (ps : List JobPatch)
    (hj : j.outputPath = none)
    (hrest : List.Chain' (fun a b => ∀ v, a.outputPath = some v → b.outputPath = some v)
      (jobStates (applyPatch j p t) (t + 1) ps)) :
    List.Chain' (fun a b => ∀ v, a.outputPath = some v → b.outputPath = some v)
      (jobStates j t (p :: ps)) := by
  rw [jobStates, List.chain'_cons']
  refine ⟨fun b _ v hv => ?_, hrest⟩
  rw [hj] at hv
  cases hv

theorem remoteTailPatches_outputPath (r : RemoteRun) :
    ∀ p ∈ remoteTailPatches r, p.outputPath = none := by
  intro p hp
  cases hf : r.fetchErr with
  | some m =>
    simp [remoteTailPatches, hf] at hp
    rcases hp with rfl | ⟨x, hx, rfl⟩ | rfl <;>
      simp [runningPatch, fetchProgressPatch, errorResetPatch]
  | none =>
    cases he : r.encodeErr with
    | some m =>
      simp [remoteTailPatches, hf, he] at hp
      rcases hp with rfl | ⟨x, hx, rfl⟩ | rfl | ⟨x, hx, rfl⟩ | rfl <;>
        simp [runningPatch, fetchProgressPatch, forceFiftyPatch, encodeProgressPatch,
          errorResetPatch]
    | none =>
      simp [remoteTailPatches, hf, he] at hp
      rcases hp with rfl | ⟨x, hx, rfl⟩ | rfl | ⟨x, hx, rfl⟩ | rfl <;>
        simp [runningPatch, fetchProgressPatch, forceFiftyPatch, encodeProgressPatch, donePatch]

theorem localLatePatches_outputPath (l : LocalRun) :
    ∀ p ∈ l.encodeReports.map localProgressPatch ++ [localFinalPatch l],
      p.outputPath = none := by
  intro p hp
  cases he : l.encodeErr with
  | some m =>
    simp [localFinalPatch, he] at hp
    rcases hp with ⟨x, hx, rfl⟩ | rfl <;> simp [localProgressPatch, localErrorPatch]
  | none =>
    simp [localFinalPatch, he] at hp
    rcases hp with ⟨x, hx, rfl⟩ | rfl <;> simp [localProgressPatch, donePatch]

end MyApp

namespace MyApp

/-- C1 counterexample: the store's `updateJob` does not guard terminal
states — on a job whose status is `done`, an update carrying
`{ status: 'running' }` changes the status (it is neither a no-op nor
rejected). -/
theorem update_after_terminal_changes_status :
    (storeGet storeC1 "a").map Job.status = some JobStatus.done ∧
    (storeGet (updateJobStore storeC1 "a" { status := some JobStatus.running } 20) "a").map
        Job.status = some JobStatus.running := by
  decide

/-- C1 (amended): the store's `updateJob` applies any patch regardless of
the current status, but along the store-update traces actually issued by
the remote and local job runners, a single terminal update ends the
trace, so no observed transition ever leaves `done` or `error`. -/
theorem terminal_exclusivity_of_runner_traces :
    ∀ (r : RemoteRun) (l : LocalRun) (t u : Int),
      List.Chain'
        (fun a b =>
          (a.status = JobStatus.done ∨ a.status = JobStatus.error) → b.status = a.status)
        (jobStates (remoteInitJob r) t (remoteRunPatches r)) ∧
      List.Chain'
        (fun a b =>
          (a.status = JobStatus.done ∨ a.status = JobStatus.error) → b.status = a.status)
        (jobStates (localInitJob l) u (localRunPatches l)) := by
  intro r l t u
  constructor
  · apply chain'_terminal
    · constructor <;> simp [remoteInitJob]
    · rw [remoteRunPatches_eq_concat, List.dropLast_concat]
      exact remoteMidPatches_status r
  · apply chain'_terminal
    · constructor <;> simp [localInitJob]
    · rw [localRunPatches_eq_concat, List.dropLast_concat]
      exact localMidPatches_status l

/-- C9 counterexample: in the remote-source path the `outputPath` is
written immediately after job creation (`src/unnamed/part_010:171-172`),
so the job record right after the first store update still has status
`queued` — before the runner has even started the fetch phase — yet its
`outputPath` is already present. -/
theorem outputPath_present_while_queued :
    ((jobStates (remoteInitJob runOk) 0 (remoteRunPatches runOk)).get? 1).map
        (fun a => (a.status, a.outputPath)) =
      some (JobStatus.queued, some "temp/out.mp3") := by
  decide

/-- C9 (amended): in both runner paths `outputPath` is written exactly
once and never overwritten (once present it keeps its value for the rest
of the trace).  In the local path it is absent until encoding begins (the
first two states — `queued`, and `running` just before the `outputPath`
write — have no `outputPath`); in the remote path, however, it is set at
creation time, while the job is still `queued` and before the fetch phase
starts. -/
theorem outputPath_set_once_traces :
    ∀ (r : RemoteRun) (l : LocalRun) (t u : Int),
      List.Chain' (fun a b => ∀ v, a.outputPath = some v → b.outputPath = some v)
        (jobStates (remoteInitJob r) t (remoteRunPatches r)) ∧
      ((jobStates (remoteInitJob r) t (remoteRunPatches r)).get? 1).map Job.outputPath =
        some (some r.outPath) ∧
      ((jobStates (remoteInitJob r) t (remoteRunPatches r)).get? 1).map Job.status =
        some JobStatus.queued ∧
      List.Chain' (fun a b => ∀ v, a.outputPath = some v → b.outputPath = some v)
        (jobStates (localInitJob l) u (localRunPatches l)) ∧
      (∀ a ∈ (jobStates (localInitJob l) u (localRunPatches l)).take 2,
        a.outputPath = none) := by
  intro r l t u
  refine ⟨?_, ?_, ?_, ?_, ?_⟩
  · rw [remoteRunPatches_eq_cons]
    exact chain'_outputPath_cons _ _ _ _ rfl
      (chain'_outputPath_of_none _ _ _ (remoteTailPatches_outputPath r))
  · rw [remoteRunPatches_eq_cons]
    simp [jobStates, jobStates_head?, List.get?, applyPatch, outputPathPatch, remoteTailPatches]
  · rw [remoteRunPatches_eq_cons]
    simp [jobStates, applyPatch, outputPathPatch, remoteInitJob, remoteTailPatches]
  · rw [show localRunPatches l = runningPatch :: outputPathPatch l.outPath ::
        (l.encodeReports.map localProgressPatch ++ [localFinalPatch l]) from rfl]
    apply chain'_outputPath_cons _ _ _ _ rfl
    apply chain'_outputPath_cons
    · rw [applyPatch_outputPath_of_none (by simp [runningPatch])]
      rfl
    · exact chain'_outputPath_of_none _ _ _ (localLatePatches_outputPath l)
  · rw [show localRunPatches l = runningPatch :: outputPathPatch l.outPath ::
        (l.encodeReports.map localProgressPatch ++ [localFinalPatch l]) from rfl]
    intro a ha
    simp [jobStates, List.take] at ha
    rcases ha with rfl | rfl
    · rfl
    · rw [applyPatch_outputPath_of_none (by simp [runningPatch])]
      rfl

/-- C10: whenever a collaborator failure moves a remote-source job to
`error`, the very same store update carries `progress: 0`, so the final
record has progress `0` (not the last value reached). -/
theorem error_update_resets_progress (r : RemoteRun) (t : Int) (m : String)
    (h : r.fetchErr = some m ∨ (r.fetchErr = none ∧ r.encodeErr = some m)) :
    (errorResetPatch m).status = some JobStatus.error ∧
    (errorResetPatch m).progress = some 0 ∧
    remoteFinalPatch r = errorResetPatch m ∧
    (remoteFinalJob r t).status = JobStatus.error ∧
    (remoteFinalJob r t).progress = some 0 := by
  have hfin : remoteFinalPatch r = errorResetPatch m := by
    rcases h with h | ⟨h1, h2⟩
    · simp [remoteFinalPatch, h]
    · simp [remoteFinalPatch, h1, h2]
  refine ⟨rfl, rfl, hfin, ?_, ?_⟩
  · rw [remoteFinalJob_eq, hfin]
    simp [applyPatch, errorResetPatch]
  · rw [remoteFinalJob_eq, hfin]
    simp [applyPatch, errorResetPatch]

/-- C10 witness: a concrete failing run ends with status `error` and
progress `0`. -/
theorem error_update_resets_progress_witness :
    (remoteFinalJob runFetchFail 0).status = JobStatus.error ∧
    (remoteFinalJob runFetchFail 0).progress = some 0 :=
  ⟨(error_update_resets_progress runFetchFail 0 "boom" (Or.inl rfl)).2.2.2.1,
   (error_update_resets_progress runFetchFail 0 "boom" (Or.inl rfl)).2.2.2.2⟩

/-- C6: evaluating the remote runner at an encode failure whose message
contains `'invalid codec'`, with a partially-written output file on disk:
the job does transition to `error` and the message is passed through (it
contains `'invalid codec'`), but the partial output file is NOT removed —
the catch block's deletion is guarded by the `outputFileExists` flag,
which is assigned only after a successful conversion, so it is still
`false` in every error path. -/
theorem encode_failure_keeps_partial_output :
    (remoteFinalJob runC6 0).status = JobStatus.error ∧
    (remoteFinalJob runC6 0).errMsg = some "FFmpeg audio extraction error: invalid codec" ∧
    containsStr ((remoteFinalJob runC6 0).errMsg.getD "") "invalid codec" = true ∧
    remoteOutputOnDisk runC6 = true := by
  decide

end MyApp

namespace MyApp

/-! ### Compositor bounds and monotonicity -/

theorem composeFetch_nonneg (p : ℤ) : 0 ≤ composeFetch p := le_max_left 0 _

theorem composeFetch_le_fifty (p : ℤ) : composeFetch p ≤ 50 :=
  max_le (by norm_num) (min_le_left _ _)

theorem composeEncode_ge_fifty (p : ℤ) : 50 ≤ composeEncode p := le_max_left 50 _

theorem composeEncode_le_hundred (p : ℤ) : composeEncode p ≤ 100 :=
  max_le (by norm_num) (min_le_left _ _)

theorem jsRoundHalf_mono {p q : ℤ} (h : p ≤ q) : jsRoundHalf p ≤ jsRoundHalf q :=
  Int.ediv_le_ediv (by norm_num) (by omega)

theorem composeFetch_mono {p q : ℤ} (h : p ≤ q) : composeFetch p ≤ composeFetch q :=
  max_le_max le_rfl (min_le_min le_rfl (jsRoundHalf_mono h))

theorem composeEncode_mono {p q : ℤ} (h : p ≤ q) : composeEncode p ≤ composeEncode q :=
  max_le_max le_rfl (min_le_min le_rfl (add_le_add_left (jsRoundHalf_mono h) 50))

theorem filterMap_progress_map (f : ℤ → ℤ) (g : ℤ → JobPatch)
    (hg : ∀ x, (g x).progress = some (f x)) (xs : List ℤ) :
    (xs.map g).filterMap (fun p => p.progress) = xs.map f := by
  induction xs with
  | nil => rfl
  | cons x xs ih => simp [hg, ih]

/-- The progress values written to the store by a fully successful remote
run: the initial `0`, the composed fetch writes, the forced `50`, the
composed encode writes, and the final `100`. -/
theorem progressWrites_remote_ok (r : RemoteRun)
    (hf : r.fetchErr = none) (he : r.encodeErr = none) :
    progressWrites (remoteRunPatches r) =
      0 :: (r.fetchReports.map composeFetch ++
        50 :: (r.encodeReports.map composeEncode ++ [100])) := by
  simp [progressWrites, remoteRunPatches, hf, he, List.filterMap_append,
    filterMap_progress_map composeFetch fetchProgressPatch (fun x => rfl),
    filterMap_progress_map composeEncode encodeProgressPatch (fun x => rfl),
    outputPathPatch, runningPatch, forceFiftyPatch, donePatch]

/-- Gluing sorted blocks: `A ++ x :: B` is sorted when `A` and `B` are,
every element of `A` is at most `x`, and `x` is at most every element of
`B`. -/
theorem chain'_le_append_cons {A B : List ℤ} {x : ℤ}
    (hA : List.Chain' (· ≤ ·) A) (hB : List.Chain' (· ≤ ·) B)
    (hAx : ∀ a ∈ A, a ≤ x) (hxB : ∀ b ∈ B, x ≤ b) :
    List.Chain' (· ≤ ·) (A ++ x :: B) := by
  rw [List.chain'_append]
  refine ⟨hA, ?_, ?_⟩
  · rw [List.chain'_cons']
    exact ⟨fun y hy => hxB y (List.mem_of_mem_head? hy), hB⟩
  · intro a ha y hy
    simp only [List.head?_cons, Option.mem_def, Option.some.injEq] at hy
    subst hy
    exact hAx a (List.mem_of_mem_getLast? ha)

end MyApp

namespace MyApp

theorem getLast?_progress_shape (A B : List ℤ) :
    ((0 : ℤ) :: (A ++ 50 :: (B ++ [100]))).getLast? = some (100 : ℤ) := by
  rw [show (0 : ℤ) :: (A ++ 50 :: (B ++ [100])) = ((0 : ℤ) :: A ++ 50 :: B) ++ [100] by simp]
  exact List.getLast?_concat _

/-- C3 counterexample: a remote run whose fetch collaborator reports the
in-range values `50` then `0` (out of order) reaches `done`, but the
sequence of progress values written to the store decreases (`25` then
`0`): the store offers no monotonicity guard, so out-of-order reports
produce non-monotone writes. -/
theorem progress_nonmonotone_counterexample :
    runC3.fetchReports = [50, 0] ∧ runC3.encodeReports = [100] ∧
    runC3.fetchErr = none ∧ runC3.encodeErr = none ∧
    (remoteFinalJob runC3 0).status = JobStatus.done ∧
    progressWrites (remoteRunPatches runC3) = [0, 25, 0, 50, 100, 100] ∧
    ¬ List.Chain' (· ≤ ·) (progressWrites (remoteRunPatches runC3)) := by
  refine ⟨rfl, rfl, rfl, rfl, by decide, by decide, ?_⟩
  intro hch
  rw [show progressWrites (remoteRunPatches runC3) = [0, 25, 0, 50, 100, 100] from by decide]
    at hch
  norm_num [List.chain'_cons] at hch

/-- C3 (amended): for a remote run in which both collaborators succeed
and each reports non-decreasing values in `[0, 100]`, the progress
sequence written to the store is exactly the initial `0`, the composed
fetch values, the forced `50` at the internal fetch-to-encode transition,
the composed encode values, and the final `100`; it is non-decreasing,
ends at `100`, and the job ends in `done`. -/
theorem progress_monotonicity_amended (r : RemoteRun) (t : Int)
    (hf : r.fetchErr = none) (he : r.encodeErr = none)
    (hfr : List.Chain' (· ≤ ·) r.fetchReports)
    (her : List.Chain' (· ≤ ·) r.encodeReports)
    (hfb : ∀ p ∈ r.fetchReports, 0 ≤ p ∧ p ≤ 100)
    (heb : ∀ p ∈ r.encodeReports, 0 ≤ p ∧ p ≤ 100) :
    progressWrites (remoteRunPatches r) =
      0 :: (r.fetchReports.map composeFetch ++
        50 :: (r.encodeReports.map composeEncode ++ [100])) ∧
    List.Chain' (· ≤ ·) (progressWrites (remoteRunPatches r)) ∧
    (progressWrites (remoteRunPatches r)).getLast? = some 100 ∧
    (remoteFinalJob r t).status = JobStatus.done := by
  have hw := progressWrites_remote_ok r hf he
  refine ⟨hw, ?_, ?_, ?_⟩
  · rw [hw, List.chain'_cons']
    constructor
    · intro y hy
      rcases List.mem_append.1 (List.mem_of_mem_head? hy) with h1 | h1
      · rcases List.mem_map.1 h1 with ⟨x, _, rfl⟩
        exact composeFetch_nonneg x
      · rcases List.mem_cons.1 h1 with rfl | h2
        · norm_num
        · rcases List.mem_append.1 h2 with h3 | h3
          · rcases List.mem_map.1 h3 with ⟨x, _, rfl⟩
            have := composeEncode_ge_fifty x
            omega
          · simp only [List.mem_singleton] at h3
            subst h3
            norm_num
    · apply chain'_le_append_cons
      · rw [List.chain'_map]
        exact List.Chain'.imp (fun a b hab => composeFetch_mono hab) hfr
      · apply chain'_le_append_cons
        · rw [List.chain'_map]
          exact List.Chain'.imp (fun a b hab => composeEncode_mono hab) her
        · simp
        · intro a ha
          rcases List.mem_map.1 ha with ⟨x, _, rfl⟩
          exact composeEncode_le_hundred x
        · intro b hb
          simp at hb
      · intro a ha
        rcases List.mem_map.1 ha with ⟨x, _, rfl⟩
        exact composeFetch_le_fifty x
      · intro b hb
        rcases List.mem_append.1 hb with h3 | h3
        · rcases List.mem_map.1 h3 with ⟨x, _, rfl⟩
          exact composeEncode_ge_fifty x
        · simp only [List.mem_singleton] at h3
          subst h3
          norm_num
  · rw [hw]
    exact getLast?_progress_shape _ _
  · rw [remoteFinalJob_eq, show remoteFinalPatch r = donePatch by
      simp [remoteFinalPatch, hf, he]]
    simp [applyPatch, donePatch]

/-- C3 witness: the amended statement holds for the orderly run
`0, 50, 100` / `0, 50, 100`. -/
theorem progress_monotonicity_amended_witness :
    List.Chain' (· ≤ ·) (progressWrites (remoteRunPatches runOk)) ∧
    (progressWrites (remoteRunPatches runOk)).getLast? = some 100 ∧
    (remoteFinalJob runOk 0).status = JobStatus.done :=
  ⟨(progress_monotonicity_amended runOk 0 rfl rfl (by norm_num [runOk, List.chain'_cons])
      (by norm_num [runOk, List.chain'_cons]) (by decide) (by decide)).2.1,
   (progress_monotonicity_amended runOk 0 rfl rfl (by norm_num [runOk, List.chain'_cons])
      (by norm_num [runOk, List.chain'_cons]) (by decide) (by decide)).2.2.1,
   (progress_monotonicity_amended runOk 0 rfl rfl (by norm_num [runOk, List.chain'_cons])
      (by norm_num [runOk, List.chain'_cons]) (by decide) (by decide)).2.2.2⟩

end MyApp

namespace MyApp

/-- C5 counterexample: for a job in status `done` with `outputPath` set
but whose file is missing/unreadable on disk, `streamOutput` returns the
404 `'File not found'` response — not the `NotReady` (400) response the
claim prescribes for an unreadable output. -/
theorem download_unreadable_gives_notFound :
    jobDoneC5.status = JobStatus.done ∧
    jobDoneC5.outputPath = some "temp/b_output.mp3" ∧
    streamOutput (some jobDoneC5) (fun _ => none) = RetrieveResult.notFound "File not found" ∧
    streamOutput (some jobDoneC5) (fun _ => none) ≠ RetrieveResult.notReady := by
  decide

/-- C5 (amended): retrieval returns NotFound for an unknown id, NotReady
exactly when the job exists but its status is not `done` or its
`outputPath` field is absent, NotFound (not NotReady) when the job is
`done` with `outputPath` set but the file is unreadable on disk, and a
byte stream with content type derived from the target and the file's
size exactly when the job is `done`, `outputPath` is set, and the file
is readable. -/
theorem download_gating_amended (job? : Option Job) (statSize : String → Option Int) :
    (job? = none → streamOutput job? statSize = RetrieveResult.notFound "Job not found") ∧
    (∀ j, job? = some j → (j.status ≠ JobStatus.done ∨ j.outputPath = none) →
      streamOutput job? statSize = RetrieveResult.notReady) ∧
    (∀ j path, job? = some j → j.status = JobStatus.done → j.outputPath = some path →
      statSize path = none →
      streamOutput job? statSize = RetrieveResult.notFound "File not found") ∧
    (∀ j path size, job? = some j → j.status = JobStatus.done → j.outputPath = some path →
      statSize path = some size →
      streamOutput job? statSize =
        RetrieveResult.stream (contentTypeOf j.target)
          ("converted_" ++ j.id ++ "." ++ targetStr j.target) size) := by
  refine ⟨?_, ?_, ?_, ?_⟩
  · intro h
    subst h
    rfl
  · intro j h hcond
    subst h
    simp only [streamOutput]
    rw [if_pos hcond]
  · intro j path h hs hp hstat
    subst h
    simp [streamOutput, hs, hp, hstat]
  · intro j path size h hs hp hstat
    subst h
    simp [streamOutput, hs, hp, hstat]

/-- C5 witness: concrete retrievals — missing file gives `'File not
found'`, unknown id gives `'Job not found'`, readable file streams with
the file's size. -/
theorem download_gating_amended_witness :
    streamOutput (some jobDoneC5) (fun _ => none) =
      RetrieveResult.notFound "File not found" ∧
    streamOutput none (fun _ => none) = RetrieveResult.notFound "Job not found" ∧
    streamOutput (some jobDoneC5) (fun _ => some 777) =
      RetrieveResult.stream (contentTypeOf jobDoneC5.target)
        ("converted_" ++ jobDoneC5.id ++ "." ++ targetStr jobDoneC5.target) 777 :=
  ⟨(download_gating_amended (some jobDoneC5) (fun _ => none)).2.2.1 jobDoneC5
      "temp/b_output.mp3" rfl rfl rfl rfl,
   (download_gating_amended none (fun _ => none)).1 rfl,
   (download_gating_amended (some jobDoneC5) (fun _ => some 777)).2.2.2 jobDoneC5
      "temp/b_output.mp3" 777 rfl rfl rfl rfl⟩

end MyApp

namespace MyApp

/-- C8 counterexample: `Partial<Job>` admits `createdAt`, and `updateJob`
merges it like any other field — so an update patch carrying `createdAt`
changes it, contradicting "leaving id, createdAt ... unchanged" for
every partial patch. -/
theorem update_overwrites_createdAt :
    (storeGet storeC8 "a").map Job.createdAt = some 0 ∧
    (storeGet (updateJobStore storeC8 "a" { createdAt := some 999 } 7) "a").map
        Job.createdAt = some 999 := by
  decide

/-- C8 (amended): for a known id, `updateJob` replaces the record by the
merge that takes every field present in the patch from the patch and
every other field from the old record, with `updatedAt` refreshed to the
current time (`id` and `createdAt` are unchanged exactly when the patch
does not carry them); for an unknown id it is a silent no-op. -/
theorem update_frame_amended (s : Store) (id : String) (p : JobPatch) (now : Int) :
    (storeGet s id = none → updateJobStore s id p now = s) ∧
    (∀ j, storeGet s id = some j →
      storeGet (updateJobStore s id p now) id = some (applyPatch j p now) ∧
      (applyPatch j p now).updatedAt = now ∧
      ((p.id = none → (applyPatch j p now).id = j.id) ∧
        ∀ v, p.id = some v → (applyPatch j p now).id = v) ∧
      ((p.status = none → (applyPatch j p now).status = j.status) ∧
        ∀ v, p.status = some v → (applyPatch j p now).status = v) ∧
      ((p.progress = none → (applyPatch j p now).progress = j.progress) ∧
        ∀ v, p.progress = some v → (applyPatch j p now).progress = some v) ∧
      ((p.inputPath = none → (applyPatch j p now).inputPath = j.inputPath) ∧
        ∀ v, p.inputPath = some v → (applyPatch j p now).inputPath = v) ∧
      ((p.outputPath = none → (applyPatch j p now).outputPath = j.outputPath) ∧
        ∀ v, p.outputPath = some v → (applyPatch j p now).outputPath = some v) ∧
      ((p.errMsg = none → (applyPatch j p now).errMsg = j.errMsg) ∧
        ∀ v, p.errMsg = some v → (applyPatch j p now).errMsg = some v) ∧
      ((p.target = none → (applyPatch j p now).target = j.target) ∧
        ∀ v, p.target = some v → (applyPatch j p now).target = v) ∧
      ((p.preset = none → (applyPatch j p now).preset = j.preset) ∧
        ∀ v, p.preset = some v → (applyPatch j p now).preset = some v) ∧
      ((p.bitrate = none → (applyPatch j p now).bitrate = j.bitrate) ∧
        ∀ v, p.bitrate = some v → (applyPatch j p now).bitrate = some v) ∧
      ((p.originalName = none → (applyPatch j p now).originalName = j.originalName) ∧
        ∀ v, p.originalName = some v → (applyPatch j p now).originalName = some v) ∧
      ((p.createdAt = none → (applyPatch j p now).createdAt = j.createdAt) ∧
        ∀ v, p.createdAt = some v → (applyPatch j p now).createdAt = v)) := by
  refine ⟨fun h => by simp [updateJobStore, h], fun j hj => ?_⟩
  refine ⟨?_, rfl, ?_, ?_, ?_, ?_, ?_, ?_, ?_, ?_, ?_, ?_, ?_⟩
  · have hj' : List.lookup id s = some j := hj
    simp [updateJobStore, storeGet, storeSet, hj', List.lookup]
  all_goals
    exact ⟨fun h => by simp [applyPatch, h], fun v h => by simp [applyPatch, h]⟩

/-- C8 witness: updating a known job with `{status: 'running',
progress: 0}` replaces exactly those fields and `updatedAt`, and
updating an unknown id changes nothing. -/
theorem update_frame_amended_witness :
    storeGet (updateJobStore storeC8 "a" patchC8 7) "a" = some (applyPatch jobC8 patchC8 7) ∧
    (applyPatch jobC8 patchC8 7).status = JobStatus.running ∧
    (applyPatch jobC8 patchC8 7).createdAt = jobC8.createdAt ∧
    (applyPatch jobC8 patchC8 7).updatedAt = 7 ∧
    updateJobStore storeC8 "zzz" patchC8 7 = storeC8 :=
  ⟨((update_frame_amended storeC8 "a" patchC8 7).2 jobC8 (by decide)).1,
   ((update_frame_amended storeC8 "a" patchC8 7).2 jobC8 (by decide)).2.2.2.1.2
     JobStatus.running rfl,
   (((update_frame_amended storeC8 "a" patchC8 7).2 jobC8
       (by decide)).2.2.2.2.2.2.2.2.2.2.2.2).1 rfl,
   ((update_frame_amended storeC8 "a" patchC8 7).2 jobC8 (by decide)).2.1,
   (update_frame_amended storeC8 "zzz" patchC8 7).1 (by decide)⟩

end MyApp

namespace MyApp

/-! ### Association-list lemmas (string-keyed maps) -/

theorem strMem_unique {β : Type} {l : List (String × β)}
    (h : (l.map Prod.fst).Nodup) {a : String} {b b' : β}
    (h1 : (a, b) ∈ l) (h2 : (a, b') ∈ l) : b = b' := by
  induction l with
  | nil => cases h1
  | cons e t ih =>
    simp only [List.map_cons, List.nodup_cons] at h
    rcases List.mem_cons.1 h1 with he1 | h1t
    · rcases List.mem_cons.1 h2 with he2 | h2t
      · rw [← he1] at he2
        exact (Prod.mk.injEq _ _ _ _ ▸ he2).2.symm
      · exfalso
        apply h.1
        rw [← he1]
        exact List.mem_map.2 ⟨(a, b'), h2t, rfl⟩
    · rcases List.mem_cons.1 h2 with he2 | h2t
      · exfalso
        apply h.1
        rw [← he2]
        exact List.mem_map.2 ⟨(a, b), h1t, rfl⟩
      · exact ih h.2 h1t h2t

theorem strLookup_eq_none {β : Type} {l : List (String × β)} {a : String}
    (h : ∀ b, (a, b) ∈ l → False) : List.lookup a l = none := by
  induction l with
  | nil => rfl
  | cons e t ih =>
    obtain ⟨k, v⟩ := e
    by_cases hk : a = k
    · exact (h v (by rw [hk]; exact List.mem_cons_self _ _)).elim
    · have hf : (a == k) = false := by simp [hk]
      simp only [List.lookup, hf]
      exact ih fun b hb => h b (List.mem_cons_of_mem _ hb)

theorem strLookup_mem {β : Type} {l : List (String × β)} {a : String} {b : β}
    (h : List.lookup a l = some b) : (a, b) ∈ l := by
  induction l with
  | nil => cases h
  | cons e t ih =>
    obtain ⟨k, v⟩ := e
    by_cases hk : a = k
    · subst hk
      have ht : (a == a) = true := by simp
      simp only [List.lookup, ht, Option.some.injEq] at h
      subst h
      exact List.mem_cons_self _ _
    · have hf : (a == k) = false := by simp [hk]
      simp only [List.lookup, hf] at h
      exact List.mem_cons_of_mem _ (ih h)

end MyApp

namespace MyApp

/-- C7: one sweep pass with the 24-hour retention window.  For a job in
the store whose output file's mtime is not later than the job's
`updatedAt`: if the job is `done` and `updatedAt` is older than the
cutoff, the pass removes the record, its persisted snapshot, and its
output file; a `done` job not older than the cutoff keeps its record;
and a job whose status is not `done` (`error`, `queued`, `running`) is
never removed by the age-based sweep. -/
theorem retention_sweep (s : SweepState) (now : Int) (id : String) (j : Job)
    (path : String) (mtime : Int)
    (hnm : (s.mem.map Prod.fst).Nodup)
    (hnf : (s.files.map Prod.fst).Nodup)
    (hmem : (id, j) ∈ s.mem)
    (hout : j.outputPath = some path)
    (hfile : (path, mtime) ∈ s.files)
    (hmt : mtime ≤ j.updatedAt) :
    (j.status = JobStatus.done ∧ j.updatedAt < now - 24 * msPerHour →
      List.lookup id (sweepPass s now).mem = none ∧
      List.lookup id (sweepPass s now).disk = none ∧
      List.lookup path (sweepPass s now).files = none) ∧
    (j.status = JobStatus.done ∧ now - 24 * msPerHour ≤ j.updatedAt →
      (id, j) ∈ (sweepPass s now).mem) ∧
    (j.status ≠ JobStatus.done → (id, j) ∈ (sweepPass s now).mem) := by
  refine ⟨?_, ?_, ?_⟩
  · rintro ⟨hd, hold⟩
    have hexp : expiredDone (now - 24 * msPerHour) j = true := by
      simp [expiredDone, hd, hold]
    refine ⟨?_, ?_, ?_⟩
    · apply strLookup_eq_none
      intro b hb
      have hb' := List.mem_filter.1 hb
      have hbj : b = j := strMem_unique hnm hb'.1 hmem
      subst hbj
      rw [hexp] at hb'
      exact absurd hb'.2 (by simp)
    · apply strLookup_eq_none
      intro b hb
      have hb' := List.mem_filter.1 hb
      have hany : (s.mem.any fun m => m.1 == id && expiredDone (now - 24 * msPerHour) m.2)
          = true :=
        List.any_eq_true.2 ⟨(id, j), hmem, by simp [hexp]⟩
      rw [hany] at hb'
      exact absurd hb'.2 (by simp)
    · apply strLookup_eq_none
      intro m hm
      have hm' := List.mem_filter.1 hm
      have hmm : m = mtime := strMem_unique hnf hm'.1 hfile
      subst hmm
      have : decide (m < now - 24 * msPerHour) = true := by
        simp only [decide_eq_true_eq]
        omega
      rw [this] at hm'
      exact absurd hm'.2 (by simp)
  · rintro ⟨hd, hnew⟩
    apply List.mem_filter.2
    refine ⟨hmem, ?_⟩
    simp only [expiredDone, Bool.not_eq_true', decide_eq_false_iff_not]
    rintro ⟨-, hlt⟩
    omega
  · intro hnd
    apply List.mem_filter.2
    refine ⟨hmem, ?_⟩
    simp only [expiredDone, Bool.not_eq_true', decide_eq_false_iff_not]
    rintro ⟨hd, -⟩
    exact hnd hd

/-- C7 witness: a sweep at time `100h` removes the `done` job last
updated at time `0` (record, snapshot, and output file) under the
24-hour window. -/
theorem retention_sweep_witness :
    List.lookup "old" (sweepPass sweepC7 (100 * msPerHour)).mem = none ∧
    List.lookup "old" (sweepPass sweepC7 (100 * msPerHour)).disk = none ∧
    List.lookup "temp/old_output.mp3" (sweepPass sweepC7 (100 * msPerHour)).files = none :=
  (retention_sweep sweepC7 (100 * msPerHour) "old" jobOld "temp/old_output.mp3" 0
      (by decide) (by decide) (by decide) (by decide) (by decide) (by decide)).1
    ⟨rfl, by decide⟩

end MyApp

namespace MyApp

/-! ### Persisted-store lemmas -/

theorem strLookup_filter_ne {β : Type} (l : List (String × β)) (a k : String) (h : a ≠ k) :
    List.lookup a (l.filter fun e => e.1 ≠ k) = List.lookup a l := by
  induction l with
  | nil => rfl
  | cons e t ih =>
    obtain ⟨k', v'⟩ := e
    by_cases hk : k' = k
    · subst hk
      have hf : (a == k') = false := by simp [h]
      rw [show (((k', v') :: t).filter fun e => e.1 ≠ k') = t.filter fun e => e.1 ≠ k' by
        simp [List.filter_cons]]
      simp only [List.lookup, hf]
      exact ih
    · rw [show (((k', v') :: t).filter fun e => e.1 ≠ k) =
          (k', v') :: t.filter fun e => e.1 ≠ k by simp [List.filter_cons, hk]]
      by_cases ha : a = k'
      · subst ha
        have ht : (a == a) = true := by simp
        rw [List.lookup, List.lookup]
        simp [ht]
      · have hf : (a == k') = false := by simp [ha]
        rw [List.lookup, List.lookup]
        simp only [hf]
        exact ih

theorem strLookup_pInsert (l : List (String × Job)) (a k : String) (v : Job) :
    List.lookup a (pInsert l k v) = if a = k then some v else List.lookup a l := by
  by_cases h : a = k
  · subst h
    have ht : (a == a) = true := by simp
    simp [pInsert, List.lookup, ht]
  · have hf : (a == k) = false := by simp [h]
    simp only [pInsert, List.lookup, hf, if_neg h]
    exact strLookup_filter_ne l a k h

theorem pInsert_keyNodup {l : List (String × Job)} (h : (l.map Prod.fst).Nodup)
    (k : String) (v : Job) : ((pInsert l k v).map Prod.fst).Nodup := by
  simp only [pInsert, List.map_cons, List.nodup_cons]
  constructor
  · intro hk
    rcases List.mem_map.1 hk with ⟨e, he, hke⟩
    have hne : e.1 ≠ k := by simpa using (List.mem_filter.1 he).2
    exact hne hke
  · exact List.Nodup.sublist ((List.filter_sublist _).map Prod.fst) h

end MyApp

namespace MyApp

theorem storeInv_applyOp {s : PStore} (hs : StoreInv s) (op : StoreOp)
    (hop : opKeepsId op) : StoreInv (applyOp s op) := by
  obtain ⟨hl, hw, hn⟩ := hs
  cases op with
  | create id inp tgt pre bit orig now =>
    refine ⟨?_, ?_, ?_⟩
    · intro a
      rw [show (applyOp s (.create id inp tgt pre bit orig now)).mem =
            pInsert s.mem id
              { id := id, status := .queued, inputPath := inp, target := tgt,
                preset := pre, bitrate := bit, originalName := orig,
                createdAt := now, updatedAt := now } from rfl,
          show (applyOp s (.create id inp tgt pre bit orig now)).disk =
            pInsert s.disk id
              { id := id, status := .queued, inputPath := inp, target := tgt,
                preset := pre, bitrate := bit, originalName := orig,
                createdAt := now, updatedAt := now } from rfl,
          strLookup_pInsert, strLookup_pInsert]
      by_cases ha : a = id
      · simp [ha]
      · simp [ha, hl a]
    · intro e he
      rcases List.mem_cons.1 he with rfl | het
      · rfl
      · exact hw e ((List.filter_sublist _).subset het)
    · exact pInsert_keyNodup hn _ _
  | update id patch now =>
    simp only [applyOp, pUpdateJob]
    cases hg : pGetJob s id with
    | none => exact ⟨hl, hw, hn⟩
    | some j =>
      have hdisk : List.lookup id s.disk = some j := by
        have := hg
        rw [pGetJob, hl id] at this
        cases hd : List.lookup id s.disk <;> rw [hd] at this <;>
          simpa [Option.orElse] using this
      have hjid : j.id = id := (hw (id, j) (strLookup_mem hdisk)).symm
      have hpid : patch.id = none := hop
      have hwid : (applyPatch j patch now).id = id := by
        simp [applyPatch, hpid, hjid]
      dsimp only
      refine ⟨?_, ?_, ?_⟩
      · intro a
        rw [hwid, strLookup_pInsert, strLookup_pInsert]
        by_cases ha : a = id
        · simp [ha]
        · simp [ha, hl a]
      · intro e he
        rw [hwid] at he
        rcases List.mem_cons.1 he with rfl | het
        · exact hwid.symm
        · exact hw e ((List.filter_sublist _).subset het)
      · rw [hwid]
        exact pInsert_keyNodup hn _ _

theorem storeInv_foldl (ops : List StoreOp) (h : ∀ op ∈ ops, opKeepsId op)
    {s : PStore} (hs : StoreInv s) : StoreInv (ops.foldl applyOp s) := by
  induction ops generalizing s with
  | nil => exact hs
  | cons op ops ih =>
    exact ih (fun o ho => h o (List.mem_cons_of_mem _ ho))
      (storeInv_applyOp hs op (h op (List.mem_cons_self _ _)))

theorem storeInv_runOps (ops : List StoreOp) (h : ∀ op ∈ ops, opKeepsId op) :
    StoreInv (runOps ops) :=
  storeInv_foldl ops h ⟨fun _ => rfl, by simp, by simp⟩

end MyApp

namespace MyApp

theorem strLookup_load_aux (l : List (String × Job)) (acc : List (String × Job))
    (hw : ∀ e ∈ l, e.1 = e.2.id) (hn : (l.map Prod.fst).Nodup) (a : String) :
    List.lookup a (l.foldl (fun m e => pInsert m e.2.id e.2) acc) =
      (List.lookup a l).orElse fun _ => List.lookup a acc := by
  induction l generalizing acc with
  | nil => simp [Option.orElse]
  | cons e t ih =>
    obtain ⟨k, v⟩ := e
    have hk : k = v.id := hw (k, v) (List.mem_cons_self _ _)
    simp only [List.map_cons, List.nodup_cons] at hn
    rw [List.foldl_cons,
      ih (pInsert acc v.id v) (fun x hx => hw x (List.mem_cons_of_mem _ hx)) hn.2]
    by_cases ha : a = k
    · subst ha
      have hnone : List.lookup a t = none := by
        apply strLookup_eq_none
        intro b hb
        exact hn.1 (List.mem_map.2 ⟨(a, b), hb, rfl⟩)
      have ht : (a == a) = true := by simp
      rw [hnone, strLookup_pInsert]
      simp only [List.lookup, ht, ← hk, if_pos rfl, Option.orElse]
      simp
    · have hf : (a == k) = false := by simp [ha]
      rw [strLookup_pInsert, if_neg (hk ▸ ha)]
      simp only [List.lookup, hf]

theorem strLookup_load (disk : List (String × Job))
    (hw : ∀ e ∈ disk, e.1 = e.2.id) (hn : (disk.map Prod.fst).Nodup) (a : String) :
    List.lookup a (loadPersistedJobs disk) = List.lookup a disk := by
  rw [loadPersistedJobs, strLookup_load_aux disk [] hw hn a]
  cases List.lookup a disk <;> simp [Option.orElse]

/-- C4: every `create`/`update` persists the full record as the snapshot
keyed by the job id, and rebuilding the store from the persisted
snapshots alone (a process restart) preserves every `get` result — in
particular a job that reached `done` is still returned with status
`done` and the same `outputPath` after the restart. -/
theorem restart_survival (ops : List StoreOp) (id : String) (j : Job)
    (hops : ∀ op ∈ ops, opKeepsId op)
    (hget : pGetJob (runOps ops) id = some j)
    (hdone : j.status = JobStatus.done) :
    List.lookup id (runOps ops).disk = some j ∧
    pGetJob (restartStore (runOps ops)) id = some j ∧
    (pGetJob (restartStore (runOps ops)) id).map Job.status = some JobStatus.done ∧
    (pGetJob (restartStore (runOps ops)) id).map Job.outputPath = some j.outputPath := by
  obtain ⟨hl, hw, hn⟩ := storeInv_runOps ops hops
  have hdisk : List.lookup id (runOps ops).disk = some j := by
    rw [pGetJob, hl id] at hget
    cases hd : List.lookup id (runOps ops).disk <;> rw [hd] at hget <;>
      simpa [Option.orElse] using hget
  have hres : pGetJob (restartStore (runOps ops)) id = some j := by
    rw [pGetJob, restartStore]
    dsimp only
    rw [strLookup_load _ hw hn, hdisk]
    rfl
  exact ⟨hdisk, hres, by rw [hres, Option.map_some', hdone], by rw [hres, Option.map_some']⟩

/-- C4 witness: the concrete create→running→outputPath→done sequence
survives a restart with status `done` and the same `outputPath`. -/
theorem restart_survival_witness :
    pGetJob (restartStore (runOps opsDone)) "a" = some jobDoneC4 ∧
    (pGetJob (restartStore (runOps opsDone)) "a").map Job.status = some JobStatus.done ∧
    (pGetJob (restartStore (runOps opsDone)) "a").map Job.outputPath =
      some jobDoneC4.outputPath := by
  have hops : ∀ op ∈ opsDone, opKeepsId op := by
    intro op hop
    simp only [opsDone, List.mem_cons, List.not_mem_nil, or_false] at hop
    rcases hop with rfl | rfl | rfl | rfl
    · trivial
    · rfl
    · rfl
    · rfl
  have h := restart_survival opsDone "a" jobDoneC4 hops (by decide) rfl
  exact ⟨h.2.1, h.2.2.1, h.2.2.2⟩

end MyApp
